import Mathlib

/-!
Shallow embedding of the hd_api HiDrive client (src/hidrive.rs, src/types.rs)
and verification of its specification claims.

The repository ships only `hidrive.rs` (endpoint layer and notification
session) and `types.rs` (DTOs). The `Params`, `Identifier`, `Client` and
token-manager components live in `http.rs` / `oauth2.rs`, which are not part
of the sources; those are modelled from the spec where a claim needs them,
and each such definition says so in its doc comment.
-/

namespace HdApi

/-- HTTP method, embedding the subset of hyper::Method used by hidrive.rs. -/
inductive Method where
  | GET
  | PUT
  | POST
  | DELETE
deriving DecidableEq, Repr

/-- Modelled from the spec: `Params` (http.rs, absent from src) is an ordered
sequence of (key, value) string pairs; keys may repeat; insertion order is
preserved. -/
structure Params where
  entries : List (String × String)
deriving DecidableEq, Repr

/-- Modelled from the spec: `Params::new()` is the empty ordered sequence. -/
def Params.new : Params := ⟨[]⟩

/-- Modelled from the spec: `add_str(key, value)` appends one entry. -/
def Params.add_str (p : Params) (k v : String) : Params :=
  ⟨p.entries ++ [(k, v)]⟩

/-- Modelled from the spec: `add_uint(key, value)` appends one entry,
formatting the unsigned value in base-10 decimal. -/
def Params.add_uint (p : Params) (k : String) (v : Nat) : Params :=
  ⟨p.entries ++ [(k, toString v)]⟩

/-- Modelled from the spec: `Identifier` is the tagged variant
ByPid / ByPath / ByPidAndPath (http.rs, absent from src). -/
inductive Identifier where
  | ByPid (pid : String)
  | ByPath (path : String)
  | ByPidAndPath (pid path : String)
deriving DecidableEq, Repr

/-- Modelled from the spec: `Identifier::to_params` converts the identifier
into zero, one, or two parameter entries under caller-specified key names;
for ByPidAndPath the pid entry comes first, then the path entry. -/
def Identifier.to_params (id : Identifier) (p : Params) (pidKey pathKey : String) : Params :=
  match id with
  | .ByPid pid => p.add_str pidKey pid
  | .ByPath path => p.add_str pathKey path
  | .ByPidAndPath pid path => (p.add_str pidKey pid).add_str pathKey path

/-- Embeds `DEFAULT_API_BASE_URL` (hidrive.rs line 25). -/
def DEFAULT_API_BASE_URL : String := "https://api.hidrive.strato.com/2.1"

/-- Embeds `DEFAULT_WS_BASE_URL` (hidrive.rs line 26). -/
def DEFAULT_WS_BASE_URL : String := "wss://api.hidrive.strato.com/2.1/subscribe"

/-- The request assembled by an endpoint method before it is dispatched:
HTTP method, full URL, mandatory query parameters, and whether a streamed
body was attached with `set_attachment`. -/
structure Request where
  method : Method
  url : String
  params : Params
  attachment : Bool
deriving DecidableEq, Repr

/-- Embeds the `HiDrive` hub struct: only `base_url` matters to URL building. -/
structure HiDrive where
  base_url : String
deriving DecidableEq, Repr

/-- Embeds `HiDrive::new`, which sets `base_url` to `DEFAULT_API_BASE_URL`. -/
def HiDrive.new : HiDrive := ⟨DEFAULT_API_BASE_URL⟩

/-- Embeds `format!("{}-{}", a, b)` from `HiDriveFiles::hash` (line 602). -/
def fmtRange (ab : Nat × Nat) : String :=
  toString ab.1 ++ "-" ++ toString ab.2

/-- Embeds the fold in `HiDriveFiles::hash` (line 603):
`ranges.iter().map(..).fold(String::new(), |s, e| (s + ",") + &e)`. -/
def rangesFold (ranges : List (Nat × Nat)) : String :=
  (ranges.map fmtRange).foldl (fun s e => s ++ "," ++ e) ""

/-- Embeds the value given to the `ranges` parameter in `HiDriveFiles::hash`
(lines 597-605): `"-"` for an empty slice, otherwise the fold result with the
first byte removed (`&r[1..]`). -/
def rangesParamValue (ranges : List (Nat × Nat)) : String :=
  if ranges.isEmpty then "-" else (rangesFold ranges).drop 1

/-- Embeds `HiDriveFiles::hash` (lines 586-613) up to dispatch: GET on
base_url + "/file/hash" with parameters level, then the identifier under
pid/path, then ranges. -/
def HiDriveFiles.hash (hd : HiDrive) (id : Identifier) (level : Nat)
    (ranges : List (Nat × Nat)) : Request :=
  { method := .GET
    url := hd.base_url ++ "/file/hash"
    params :=
      ((id.to_params (Params.new.add_uint "level" level) "pid" "path").add_str
        "ranges" (rangesParamValue ranges))
    attachment := false }

/-- Embeds `HiDriveFiles::upload_` (lines 253-275) up to dispatch: the given
method on base_url + "/file", identifier under dir_id/dir, then the name
parameter, with the streamed body attached. -/
def HiDriveFiles.upload_ (hd : HiDrive) (id : Identifier) (name : String)
    (method : Method) : Request :=
  { method := method
    url := hd.base_url ++ "/file"
    params := (id.to_params Params.new "dir_id" "dir").add_str "name" name
    attachment := true }

/-- Embeds `HiDriveFiles::upload_no_overwrite` (lines 229-237): delegates to
`upload_` with Method::POST. -/
def HiDriveFiles.upload_no_overwrite (hd : HiDrive) (dir : Identifier)
    (name : String) : Request :=
  HiDriveFiles.upload_ hd dir name .POST

/-- Embeds `HiDriveFiles::upload` (lines 243-251): delegates to `upload_`
with Method::PUT. -/
def HiDriveFiles.upload (hd : HiDrive) (dir : Identifier) (name : String) : Request :=
  HiDriveFiles.upload_ hd dir name .PUT

/-- Comma-separated join, the specified wire format for the range list:
entries in order, single commas between them, no leading or trailing comma. -/
def commaJoined : List String → String
  | [] => ""
  | [x] => x
  | x :: y :: xs => x ++ "," ++ commaJoined (y :: xs)

/-- Each fold step appends a comma and then the element. -/
def commaPrefixed : List String → String
  | [] => ""
  | x :: xs => "," ++ x ++ commaPrefixed xs

theorem foldl_comma_eq (xs : List String) :
    ∀ a : String, xs.foldl (fun s e => s ++ "," ++ e) a = a ++ commaPrefixed xs := by
  induction xs with
  | nil => intro a; simp [commaPrefixed]
  | cons x xs ih =>
    intro a
    rw [List.foldl_cons, ih,
      show commaPrefixed (x :: xs) = "," ++ x ++ commaPrefixed xs from rfl]
    simp [String.append_assoc]

theorem commaPrefixed_cons_eq (x : String) (xs : List String) :
    commaPrefixed (x :: xs) = "," ++ commaJoined (x :: xs) := by
  induction xs generalizing x with
  | nil => simp [commaPrefixed, commaJoined]
  | cons y ys ih =>
    simp only [commaJoined]
    rw [show commaPrefixed (x :: y :: ys) = "," ++ x ++ commaPrefixed (y :: ys) from rfl,
      ih y]
    simp [String.append_assoc]

theorem drop_one_comma (t : String) : (("," : String) ++ t).drop 1 = t := by
  rw [String.drop_eq]
  apply String.ext
  simp [String.data_append]

theorem rangesFold_nonempty (x : Nat × Nat) (xs : List (Nat × Nat)) :
    rangesFold (x :: xs) = "," ++ commaJoined ((x :: xs).map fmtRange) := by
  unfold rangesFold
  rw [foldl_comma_eq]
  simp only [List.map_cons]
  rw [commaPrefixed_cons_eq]
  apply String.ext
  simp [String.data_append]

/-- The value of the `ranges` parameter is exactly the specified format. -/
theorem rangesParamValue_eq (ranges : List (Nat × Nat)) :
    rangesParamValue ranges =
      if ranges = [] then "-" else commaJoined (ranges.map fmtRange) := by
  cases ranges with
  | nil => rfl
  | cons x xs =>
    simp only [rangesParamValue, List.isEmpty_cons, if_neg (List.cons_ne_nil x xs)]
    rw [rangesFold_nonempty, drop_one_comma]
    simp

/-- C1: in every call to `HiDriveFiles::hash`, the `ranges` query parameter
is the last entry added, and its value is "-" for the empty slice and the
comma-joined list of base-10 "start-end" pairs, in slice order, otherwise. -/
theorem hash_ranges_param (hd : HiDrive) (id : Identifier) (level : Nat)
    (ranges : List (Nat × Nat)) :
    (HiDriveFiles.hash hd id level ranges).params.entries.getLast? =
      some ("ranges",
        if ranges = [] then "-"
        else commaJoined (ranges.map fun ab => toString ab.1 ++ "-" ++ toString ab.2)) := by
  have h : (HiDriveFiles.hash hd id level ranges).params.entries =
      (id.to_params (Params.new.add_uint "level" level) "pid" "path").entries ++
        [("ranges", rangesParamValue ranges)] := rfl
  rw [h, List.getLast?_append, rangesParamValue_eq]
  rfl

/-- C7: for a non-empty ranges slice the fold result starts with a comma and
is at least one byte long, so the slice `r[1..]` is in bounds and equals the
comma-joined range list without the leading comma. -/
theorem hash_fold_slice_safe (ranges : List (Nat × Nat)) (h : ranges ≠ []) :
    (rangesFold ranges).data.head? = some ',' ∧
      1 ≤ (rangesFold ranges).length ∧
      (rangesFold ranges).drop 1 = commaJoined (ranges.map fmtRange) := by
  cases ranges with
  | nil => exact absurd rfl h
  | cons x xs =>
    rw [rangesFold_nonempty]
    refine ⟨?_, ?_, ?_⟩
    · rw [show (("," : String) ++ commaJoined ((x :: xs).map fmtRange)).data =
        ("," : String).data ++ (commaJoined ((x :: xs).map fmtRange)).data from
          String.data_append _ _]
      rfl
    · show 1 ≤ (("," : String) ++ commaJoined ((x :: xs).map fmtRange)).data.length
      rw [String.data_append]
      simp
    · exact drop_one_comma _

/-- Witness for C7 at the concrete slice [(0,255),(256,511)]. -/
theorem hash_fold_slice_safe_witness :
    ([((0 : Nat), (255 : Nat)), (256, 511)] ≠ []) ∧
      ((rangesFold [(0, 255), (256, 511)]).data.head? = some ',' ∧
        1 ≤ (rangesFold [(0, 255), (256, 511)]).length ∧
        (rangesFold [(0, 255), (256, 511)]).drop 1 =
          commaJoined ([((0 : Nat), (255 : Nat)), (256, 511)].map fmtRange)) :=
  ⟨by decide, hash_fold_slice_safe [(0, 255), (256, 511)] (by decide)⟩

/-- C3: `upload_no_overwrite` dispatches with POST and `upload` with PUT;
both otherwise build the same /file request: directory identifier under
dir_id/dir, then the name parameter, with the streamed body attached. -/
theorem upload_methods (hd : HiDrive) (d : Identifier) (n : String) :
    (HiDriveFiles.upload_no_overwrite hd d n).method = Method.POST ∧
      (HiDriveFiles.upload hd d n).method = Method.PUT ∧
      (HiDriveFiles.upload_no_overwrite hd d n).url = hd.base_url ++ "/file" ∧
      (HiDriveFiles.upload hd d n).url = (HiDriveFiles.upload_no_overwrite hd d n).url ∧
      (HiDriveFiles.upload_no_overwrite hd d n).params =
        (d.to_params Params.new "dir_id" "dir").add_str "name" n ∧
      (HiDriveFiles.upload hd d n).params = (HiDriveFiles.upload_no_overwrite hd d n).params ∧
      (HiDriveFiles.upload_no_overwrite hd d n).attachment = true ∧
      (HiDriveFiles.upload hd d n).attachment = true :=
  ⟨rfl, rfl, rfl, rfl, rfl, rfl, rfl, rfl⟩

/-- Embeds tungstenite's `Message` enum: Text, Binary, Ping, Pong, Close
(with optional close frame) and raw Frame; only the Text/Close distinction
matters to `HiDriveNotifications::next`. -/
inductive Message where
  | Text (s : String)
  | Binary (b : List Nat)
  | Ping (p : List Nat)
  | Pong (p : List Nat)
  | Close (cf : Option String)
  | Frame
deriving DecidableEq, Repr

/-- The decoded notification event. Modelled from the spec: the shape of
`WebsocketNotification` is absent from src; a decoded JSON message is kept
as its raw text. -/
structure WebsocketNotification where
  raw : String
deriving DecidableEq, Repr

/-- Modelled from the spec: `serde_json::from_str::<Option<WebsocketNotification>>`
on a text payload: the JSON literal `null` decodes to None, a JSON object
decodes to Some, anything else is a deserialization error carrying the input. -/
def from_str (s : String) : Except String (Option WebsocketNotification) :=
  if s = "null" then .ok none
  else if s.data.head? = some '\x7b' ∧ s.data.getLast? = some '\x7d' then .ok (some ⟨s⟩)
  else .error s

/-- Frames the loop in `next` skips without producing an event: everything
matched by the `_ => continue` arm (not Text, not Close). -/
def skippable : Message → Bool
  | .Text _ => false
  | .Close _ => false
  | _ => true

/-- Embeds `HiDriveNotifications::next` (hidrive.rs lines 86-98) over the
inbound frame sequence: each stream item is a transport result; a transport
error propagates via `?`; a Text frame returns the serde decode result; a
Close frame returns Ok(None); any other frame is skipped; an exhausted
stream returns Ok(None). Returns the produced value and the rest of the
stream. -/
def next : List (Except String Message) →
    Except String (Option WebsocketNotification) × List (Except String Message)
  | [] => (.ok none, [])
  | item :: rest =>
    match item with
    | .error e => (.error e, rest)
    | .ok m =>
      match m with
      | .Text s => (from_str s, rest)
      | .Close _ => (.ok none, rest)
      | _ => next rest

/-- The result of the k-th call to `next` (0-based) on a session whose
remaining inbound stream is `fs`: each call consumes the stream left by the
previous one. -/
def nthCall (fs : List (Except String Message)) : Nat →
    Except String (Option WebsocketNotification) × List (Except String Message)
  | 0 => next fs
  | k + 1 => next (nthCall fs k).2

theorem next_skips (pre : List Message) (h : ∀ m ∈ pre, skippable m = true) :
    ∀ rest, next (pre.map Except.ok ++ rest) = next rest := by
  induction pre with
  | nil => intro rest; rfl
  | cons m ms ih =>
    intro rest
    have hm : skippable m = true := h m (List.mem_cons_self m ms)
    have hms : ∀ x ∈ ms, skippable x = true := fun x hx => h x (List.mem_cons_of_mem m hx)
    cases m with
    | Text s => simp [skippable] at hm
    | Close cf => simp [skippable] at hm
    | Binary b => simpa [next] using ih hms rest
    | Ping p => simpa [next] using ih hms rest
    | Pong p => simpa [next] using ih hms rest
    | Frame => simpa [next] using ih hms rest

/-- C2: `next` skips any run of non-text non-close frames without producing
an event; the first Text frame yields its decoded notification; a Close
frame, or an exhausted stream, yields "no more events" (None). -/
theorem next_behavior (pre : List Message) (rest : List (Except String Message))
    (s : String) (cf : Option String) (n : WebsocketNotification)
    (hpre : ∀ m ∈ pre, skippable m = true)
    (hdec : from_str s = .ok (some n)) :
    next (pre.map Except.ok ++ Except.ok (Message.Text s) :: rest) = (.ok (some n), rest) ∧
      next (pre.map Except.ok ++ Except.ok (Message.Close cf) :: rest) = (.ok none, rest) ∧
      next (pre.map Except.ok) = (.ok none, []) := by
  refine ⟨?_, ?_, ?_⟩
  · rw [next_skips pre hpre]
    simp [next, hdec]
  · rw [next_skips pre hpre]
    rfl
  · rw [show pre.map Except.ok = pre.map Except.ok ++ [] from (List.append_nil _).symm,
      next_skips pre hpre]
    rfl

/-- Witness for C2: two control frames are skipped, the text frame
"\x7b\x7d" decodes, close and empty streams give None. -/
theorem next_behavior_witness :
    (∀ m ∈ [Message.Ping [1], Message.Binary [2]], skippable m = true) ∧
      from_str "\x7b\x7d" = .ok (some ⟨"\x7b\x7d"⟩) ∧
      (next ([Message.Ping [1], Message.Binary [2]].map Except.ok ++
          Except.ok (Message.Text "\x7b\x7d") :: []) = (.ok (some ⟨"\x7b\x7d"⟩), []) ∧
        next ([Message.Ping [1], Message.Binary [2]].map Except.ok ++
          Except.ok (Message.Close none) :: []) = (.ok none, []) ∧
        next ([Message.Ping [1], Message.Binary [2]].map Except.ok) = (.ok none, [])) :=
  ⟨by decide, rfl,
    next_behavior [Message.Ping [1], Message.Binary [2]] [] "\x7b\x7d" none ⟨"\x7b\x7d"⟩
      (by decide) rfl⟩

/-- C5: for a session whose remaining inbound frames are two text events
followed by a close frame, the caller observes exactly the two events, then
"no more events" once for the close frame, and every further call to `next`
also completes immediately with "no more events": the session is terminal. -/
theorem close_terminal (s1 s2 : String) (n1 n2 : WebsocketNotification) (cf : Option String)
    (h1 : from_str s1 = .ok (some n1)) (h2 : from_str s2 = .ok (some n2)) :
    nthCall [.ok (Message.Text s1), .ok (Message.Text s2), .ok (Message.Close cf)] 0 =
        (.ok (some n1), [.ok (Message.Text s2), .ok (Message.Close cf)]) ∧
      nthCall [.ok (Message.Text s1), .ok (Message.Text s2), .ok (Message.Close cf)] 1 =
        (.ok (some n2), [.ok (Message.Close cf)]) ∧
      nthCall [.ok (Message.Text s1), .ok (Message.Text s2), .ok (Message.Close cf)] 2 =
        (.ok none, []) ∧
      ∀ k, 2 ≤ k →
        nthCall [.ok (Message.Text s1), .ok (Message.Text s2), .ok (Message.Close cf)] k =
          (.ok none, []) := by
  have e0 : nthCall [.ok (Message.Text s1), .ok (Message.Text s2), .ok (Message.Close cf)] 0 =
      (.ok (some n1), [.ok (Message.Text s2), .ok (Message.Close cf)]) := by
    simp [nthCall, next, h1]
  have e1 : nthCall [.ok (Message.Text s1), .ok (Message.Text s2), .ok (Message.Close cf)] 1 =
      (.ok (some n2), [.ok (Message.Close cf)]) := by
    show next (nthCall [.ok (Message.Text s1), .ok (Message.Text s2),
      .ok (Message.Close cf)] 0).2 = _
    rw [e0]
    simp [next, h2]
  have e2 : nthCall [.ok (Message.Text s1), .ok (Message.Text s2), .ok (Message.Close cf)] 2 =
      (.ok none, []) := by
    show next (nthCall [.ok (Message.Text s1), .ok (Message.Text s2),
      .ok (Message.Close cf)] 1).2 = _
    rw [e1]
    rfl
  refine ⟨e0, e1, e2, ?_⟩
  intro k hk
  obtain ⟨j, rfl⟩ := Nat.exists_eq_add_of_le hk
  induction j with
  | zero => exact e2
  | succ j ih =>
    show next (nthCall [.ok (Message.Text s1), .ok (Message.Text s2),
      .ok (Message.Close cf)] (2 + j)).2 = _
    rw [ih (by omega)]
    rfl

/-- Witness for C5 with two concrete decodable text payloads. -/
theorem close_terminal_witness :
    from_str "\x7b1\x7d" = .ok (some ⟨"\x7b1\x7d"⟩) ∧
      from_str "\x7b2\x7d" = .ok (some ⟨"\x7b2\x7d"⟩) ∧
      (nthCall [.ok (Message.Text "\x7b1\x7d"), .ok (Message.Text "\x7b2\x7d"),
            .ok (Message.Close none)] 0 =
          (.ok (some ⟨"\x7b1\x7d"⟩),
            [.ok (Message.Text "\x7b2\x7d"), .ok (Message.Close none)]) ∧
        nthCall [.ok (Message.Text "\x7b1\x7d"), .ok (Message.Text "\x7b2\x7d"),
            .ok (Message.Close none)] 1 =
          (.ok (some ⟨"\x7b2\x7d"⟩), [.ok (Message.Close none)]) ∧
        nthCall [.ok (Message.Text "\x7b1\x7d"), .ok (Message.Text "\x7b2\x7d"),
            .ok (Message.Close none)] 2 = (.ok none, []) ∧
        ∀ k, 2 ≤ k →
          nthCall [.ok (Message.Text "\x7b1\x7d"), .ok (Message.Text "\x7b2\x7d"),
            .ok (Message.Close none)] k = (.ok none, [])) :=
  ⟨rfl, rfl, close_terminal "\x7b1\x7d" "\x7b2\x7d" ⟨"\x7b1\x7d"⟩ ⟨"\x7b2\x7d"⟩ none rfl rfl⟩

/-- C8: a text frame whose payload is the JSON literal `null` makes `next`
return Ok(None), indistinguishable from the value produced by a close frame;
a text frame whose payload fails to deserialize makes `next` return that
error rather than skipping the frame. -/
theorem next_null_and_malformed (rest : List (Except String Message)) (s : String)
    (cf : Option String) (h : ∃ e, from_str s = .error e) :
    next (.ok (Message.Text "null") :: rest) = (.ok none, rest) ∧
      (next (.ok (Message.Text "null") :: rest)).1 = (next (.ok (Message.Close cf) :: rest)).1 ∧
      ∃ e, next (.ok (Message.Text s) :: rest) = (.error e, rest) := by
  obtain ⟨e, he⟩ := h
  exact ⟨rfl, rfl, e, by simp [next, he]⟩

/-- Witness for C8: the undecodable payload "garbage" yields an error. -/
theorem next_null_and_malformed_witness :
    (∃ e, from_str "garbage" = .error e) ∧
      (next [.ok (Message.Text "null")] = (.ok none, []) ∧
        (next [.ok (Message.Text "null")]).1 = (next [.ok (Message.Close none)]).1 ∧
        ∃ e, next [.ok (Message.Text "garbage")] = (.error e, [])) :=
  ⟨⟨"garbage", rfl⟩, next_null_and_malformed [] "garbage" none ⟨"garbage", rfl⟩⟩

/-- Embeds the `ApiError` struct (types.rs lines 3-9): fields msg, code and
optional auth. -/
structure ApiError where
  msg : String
  code : String
  auth : Option String
deriving DecidableEq, Repr

/-- Embeds the serde wire names of ApiError: the derive carries no rename
attribute, so the JSON object keys are exactly the Rust field names, in
declaration order. -/
def ApiError.wireFields : List String := ["msg", "code", "auth"]

/-- Minimal JSON value for modelling field decoding. -/
inductive Jv where
  | str (s : String)
  | null
deriving DecidableEq, Repr

/-- First string value bound to key `k`, if any. -/
def lookupStr (kvs : List (String × Jv)) (k : String) : Option String :=
  match kvs.lookup k with
  | some (.str s) => some s
  | _ => none

/-- Embeds serde deserialization of `ApiError` under `#[serde(default)]`:
each field is read from the JSON key equal to its Rust name, a missing field
takes its Default value ("" for the strings, None for auth), and unknown
keys are ignored. -/
def ApiError.fromJson (kvs : List (String × Jv)) : ApiError :=
  { msg := (lookupStr kvs "msg").getD ""
    code := (lookupStr kvs "code").getD ""
    auth := lookupStr kvs "auth" }

/-- C4 counterexample: the message field of ApiError is not named "message"
on the wire; the wire key is "msg", and a JSON object carrying only a
"message" key decodes with the msg field left at its default. -/
theorem apiError_message_name_counterexample :
    "message" ∉ ApiError.wireFields ∧ ApiError.wireFields = ["msg", "code", "auth"] ∧
      ApiError.fromJson [("message", Jv.str "oops")] =
        { msg := "", code := "", auth := none } := by
  refine ⟨by decide, rfl, rfl⟩

/-- C4 amended: ApiError has the shape {msg: string, code: string, auth:
optional string}; the message field's wire name is "msg", code is a string,
and auth is optional (absent decodes to None). -/
theorem apiError_shape (m c a : String) :
    ApiError.wireFields = ["msg", "code", "auth"] ∧
      ApiError.fromJson [("msg", Jv.str m), ("code", Jv.str c), ("auth", Jv.str a)] =
        { msg := m, code := c, auth := some a } ∧
      ApiError.fromJson [("msg", Jv.str m), ("code", Jv.str c)] =
        { msg := m, code := c, auth := none } :=
  ⟨rfl, rfl, rfl⟩

/-- Embeds `HiDriveUser::me` (lines 111-120) up to dispatch. -/
def HiDriveUser.me (hd : HiDrive) : Request :=
  { method := .GET, url := hd.base_url ++ "/user/me", params := Params.new
    attachment := false }

/-- Embeds `HiDrivePermission::get_permission` (lines 132-147) up to dispatch. -/
def HiDrivePermission.get_permission (hd : HiDrive) (id : Identifier) : Request :=
  { method := .GET, url := hd.base_url ++ "/permission"
    params := id.to_params Params.new "pid" "path", attachment := false }

/-- Embeds the request-building part of `HiDriveFiles::get` (lines 187-203),
the /file download. -/
def HiDriveFiles.get (hd : HiDrive) (id : Identifier) : Request :=
  { method := .GET, url := hd.base_url ++ "/file"
    params := id.to_params Params.new "pid" "path", attachment := false }

/-- Embeds `HiDriveFiles::get_dir` (lines 450-461) up to dispatch. -/
def HiDriveFiles.get_dir (hd : HiDrive) (id : Identifier) : Request :=
  { method := .GET, url := hd.base_url ++ "/dir"
    params := id.to_params Params.new "pid" "path", attachment := false }

/-- Embeds `HiDriveFiles::search` (lines 422-443) up to dispatch: a fields
parameter is added only when non-empty. -/
def HiDriveFiles.search (hd : HiDrive) (root : Identifier) (fields : String) : Request :=
  { method := .GET, url := hd.base_url ++ "/search"
    params :=
      if fields = "" then root.to_params Params.new "pid" "path"
      else (root.to_params Params.new "pid" "path").add_str "fields" fields
    attachment := false }

/-- The HTTP/OAuth client as far as `HiDriveNotifications::new` uses it:
`access_token()` yields the current access token; `fetches` counts how often
it was asked. Modelled from the spec for the token side (oauth2.rs is absent
from src). -/
structure Client where
  token : String
  fetches : Nat
deriving DecidableEq, Repr

/-- Modelled from the spec: `access_token()` returns the current token and
records one fetch. -/
def Client.access_token (c : Client) : String × Client :=
  (c.token, { c with fetches := c.fetches + 1 })

/-- Embeds `HiDriveNotifications::new` (lines 72-82): the WebSocket URL is
`format!("{}?access_token={}", url, hd.client.access_token())` with
`DEFAULT_WS_BASE_URL` as url, the token fetched from the client once, at
open time. -/
def HiDriveNotifications.new (c : Client) : String × Client :=
  (DEFAULT_WS_BASE_URL ++ "?access_token=" ++ c.access_token.1, c.access_token.2)

/-- C6: with the default hub every endpoint URL is the resource path
appended to https://api.hidrive.strato.com/2.1, and the notification session
opens wss://api.hidrive.strato.com/2.1/subscribe?access_token=<token> with
the token fetched from the client exactly once at open time, as a query
parameter of the URL. -/
theorem endpoint_urls (id : Identifier) (level : Nat) (ranges : List (Nat × Nat))
    (fields name : String) (c : Client) :
    (HiDriveUser.me HiDrive.new).url = "https://api.hidrive.strato.com/2.1/user/me" ∧
      (HiDriveFiles.get HiDrive.new id).url = "https://api.hidrive.strato.com/2.1/file" ∧
      (HiDriveFiles.upload HiDrive.new id name).url =
        "https://api.hidrive.strato.com/2.1/file" ∧
      (HiDriveFiles.get_dir HiDrive.new id).url = "https://api.hidrive.strato.com/2.1/dir" ∧
      (HiDrivePermission.get_permission HiDrive.new id).url =
        "https://api.hidrive.strato.com/2.1/permission" ∧
      (HiDriveFiles.search HiDrive.new id fields).url =
        "https://api.hidrive.strato.com/2.1/search" ∧
      (HiDriveFiles.hash HiDrive.new id level ranges).url =
        "https://api.hidrive.strato.com/2.1/file/hash" ∧
      (HiDriveNotifications.new c).1 =
        "wss://api.hidrive.strato.com/2.1/subscribe?access_token=" ++ c.token ∧
      (HiDriveNotifications.new c).2.fetches = c.fetches + 1 :=
  ⟨rfl, rfl, rfl, rfl, rfl, rfl, rfl, rfl, rfl⟩

/-- Token-manager cache: the current access token with its expiry, and a
count of refresh network calls performed. Modelled from the spec (oauth2.rs
is absent from src). -/
structure TokenState where
  cached : Option (String × Nat)
  refreshes : Nat
deriving DecidableEq, Repr

/-- Modelled from the spec: the access token handed out by the k-th refresh
network call. -/
def newToken (k : Nat) : String :=
  "token" ++ toString k

/-- Modelled from the spec: `refresh()` exchanges the refresh token for a new
access token and expiry, atomically replacing the cache; the new expiry lies
`lifetime` beyond the safety margin measured from `now`. -/
def TokenState.refresh (st : TokenState) (now margin lifetime : Nat) : TokenState :=
  { cached := some (newToken st.refreshes, now + margin + lifetime)
    refreshes := st.refreshes + 1 }

/-- Modelled from the spec: one caller's turn inside the single-flight
section of `current_token()`: if the cached token is present and not within
the safety margin of expiry it is returned as-is, otherwise the refresh is
performed and its token returned. -/
def current_token (st : TokenState) (now margin lifetime : Nat) : String × TokenState :=
  match st.cached with
  | some (t, expiry) =>
    if now + margin < expiry then (t, st)
    else (newToken st.refreshes, st.refresh now margin lifetime)
  | none => (newToken st.refreshes, st.refresh now margin lifetime)

/-- Modelled from the spec: N concurrent callers at time `now`, serialized by
the single-flight primitive; each in turn obtains the current token. Returns
the tokens the callers observe and the final state. -/
def runCallers : Nat → TokenState → Nat → Nat → Nat → List String × TokenState
  | 0, st, _, _, _ => ([], st)
  | n + 1, st, now, margin, lifetime =>
    let r := current_token st now margin lifetime
    let rest := runCallers n r.2 now margin lifetime
    (r.1 :: rest.1, rest.2)

theorem runCallers_valid (now margin lifetime : Nat) (t : String) (expiry : Nat) :
    ∀ n st, st.cached = some (t, expiry) → now + margin < expiry →
      runCallers n st now margin lifetime = (List.replicate n t, st) := by
  intro n
  induction n with
  | zero => intro st _ _; rfl
  | succ n ih =>
    intro st hc hv
    simp only [runCallers, current_token, hc, if_pos hv, List.replicate]
    rw [ih st hc hv]

/-- C9: when the cached token is absent or within the safety margin of
expiry, N ≥ 1 concurrent callers cause exactly one refresh network call, and
every caller observes the token that refresh produced. -/
theorem single_flight (st : TokenState) (n now margin lifetime : Nat)
    (hn : 1 ≤ n) (hl : 1 ≤ lifetime)
    (hinv : ∀ t expiry, st.cached = some (t, expiry) → expiry ≤ now + margin) :
    (runCallers n st now margin lifetime).2.refreshes = st.refreshes + 1 ∧
      ∀ t ∈ (runCallers n st now margin lifetime).1, t = newToken st.refreshes := by
  obtain ⟨m, rfl⟩ := Nat.exists_eq_add_of_le hn
  have hfirst : current_token st now margin lifetime =
      (newToken st.refreshes, st.refresh now margin lifetime) := by
    match hc : st.cached with
    | none => simp [current_token, hc]
    | some (t, expiry) =>
      have : ¬ now + margin < expiry := Nat.not_lt.mpr (hinv t expiry hc)
      simp [current_token, hc, this]
  have hvalid : now + margin < now + margin + lifetime := by omega
  have hrest : runCallers m (st.refresh now margin lifetime) now margin lifetime =
      (List.replicate m (newToken st.refreshes), st.refresh now margin lifetime) :=
    runCallers_valid now margin lifetime (newToken st.refreshes) (now + margin + lifetime)
      m (st.refresh now margin lifetime) rfl hvalid
  have hrun : runCallers (1 + m) st now margin lifetime =
      (newToken st.refreshes :: List.replicate m (newToken st.refreshes),
        st.refresh now margin lifetime) := by
    rw [show 1 + m = m + 1 from Nat.add_comm 1 m]
    simp only [runCallers, hfirst, hrest]
  rw [hrun]
  refine ⟨rfl, ?_⟩
  intro t ht
  rcases List.mem_cons.mp ht with h | h
  · exact h
  · exact List.eq_of_mem_replicate h

/-- Witness for C9: three callers on an empty cache cause one refresh and
all see token0. -/
theorem single_flight_witness :
    (1 ≤ 3 ∧ 1 ≤ 3600 ∧
        (∀ t expiry, (TokenState.mk none 0).cached = some (t, expiry) → expiry ≤ 5 + 10)) ∧
      ((runCallers 3 (TokenState.mk none 0) 5 10 3600).2.refreshes = 0 + 1 ∧
        ∀ t ∈ (runCallers 3 (TokenState.mk none 0) 5 10 3600).1, t = newToken 0) :=
  ⟨⟨by decide, by decide, fun t expiry h => by simp at h⟩,
    single_flight (TokenState.mk none 0) 3 5 10 3600 (by decide) (by decide)
      (fun t expiry h => by simp at h)⟩

/-- Outcome of a dispatched request. Modelled from the spec (the dispatcher
in http.rs is absent from src). -/
inductive DispatchResult where
  | ok (status : Nat)
  | authError
deriving DecidableEq, Repr

/-- Modelled from the spec: the dispatcher's retry loop with a refresh
budget. `responses i` is the HTTP status the server returns to the i-th
attempt. Each round sends one attempt; a non-401 status is returned to the
caller; on 401 the dispatcher refreshes the token and retries while budget
remains, and surfaces AuthError once the budget is exhausted. Returns the
outcome, the total number of attempts sent, and the number of refreshes
performed. -/
def dispatchGo (responses : Nat → Nat) : Nat → Nat → DispatchResult × Nat × Nat
  | budget, i =>
    if responses i = 401 then
      match budget with
      | 0 => (.authError, i + 1, 0)
      | b + 1 =>
        let r := dispatchGo responses b (i + 1)
        (r.1, r.2.1, r.2.2 + 1)
    else (.ok (responses i), i + 1, 0)

/-- Modelled from the spec: a dispatched request permits a single automatic
refresh-and-retry, so the retry budget is one. -/
def dispatch (responses : Nat → Nat) : DispatchResult × Nat × Nat :=
  dispatchGo responses 1 0

/-- C10: a 401 on the first attempt triggers exactly one refresh-and-retry;
a non-401 first response is returned after one attempt with no refresh; a
401 on the retried attempt surfaces AuthError after exactly two attempts and
one refresh — never a second retry or an unbounded loop. -/
theorem dispatch_401_retry (responses : Nat → Nat) :
    dispatch responses =
        (if responses 0 = 401 then
          if responses 1 = 401 then (DispatchResult.authError, 2, 1)
          else (DispatchResult.ok (responses 1), 2, 1)
        else (DispatchResult.ok (responses 0), 1, 0)) ∧
      (dispatch responses).2.1 ≤ 2 ∧ (dispatch responses).2.2 ≤ 1 := by
  by_cases h0 : responses 0 = 401
  · by_cases h1 : responses 1 = 401
    · refine ⟨?_, ?_⟩ <;> simp [dispatch, dispatchGo, h0, h1]
    · refine ⟨?_, ?_⟩ <;> simp [dispatch, dispatchGo, h0, h1]
  · refine ⟨?_, ?_⟩ <;> simp [dispatch, dispatchGo, h0]

end HdApi
